import Mathlib

/-!
Verification development for the SecureChatbot widget
(src/components/SecureChatbot).  The message session controller, the
request dispatcher, the rate limiter and the sanitizer/validator are
shallowly embedded as pure Lean functions over explicit state; the
asynchronous exchange lifecycle is modelled as a small-step event
semantics (one logical event queue, matching the single-threaded
cooperative scheduling of the host runtime).

Strings are modelled as lists of characters (the `data` field of a Lean
string) so that every operation is a structural recursion that the
kernel can evaluate.
-/

namespace Chatbot

/-- Strings of the embedded program, as plain character lists. -/
abbrev Str := List Char

/-- Whitespace characters recognised by the trimming function. -/
def isSpaceChar (c : Char) : Bool :=
  c = ' ' || c = '\t' || c = '\n' || c = '\r'

/-- Model of String.prototype.trim: drop leading and trailing whitespace. -/
def trimChars (l : Str) : Str :=
  ((l.dropWhile isSpaceChar).reverse.dropWhile isSpaceChar).reverse

/-- ASCII lowercase conversion, modelling the case-insensitive (/i) flag
of the deny-list patterns. -/
def lowerChar (c : Char) : Char :=
  if 'A' ≤ c ∧ c ≤ 'Z' then Char.ofNat (c.toNat + 32) else c

/-- Does the pattern occur as a leading segment of the text? -/
def startsWithSeq : Str → Str → Bool
  | [], _ => true
  | _ :: _, [] => false
  | p :: ps, c :: cs => p = c && startsWithSeq ps cs

/-- Does the pattern occur anywhere inside the text? -/
def containsSeq (pat : Str) : Str → Bool
  | [] => pat.isEmpty
  | c :: rest => startsWithSeq pat (c :: rest) || containsSeq pat rest

/-- Word characters for the inline-event-handler pattern. -/
def isWordChar (c : Char) : Bool := c.isAlphanum || c = '_'

/-- Does an inline event-handler attribute pattern (letters "on", then one
or more word characters, optional whitespace, then an equals sign) match
at the head of the text? -/
def onMatchAt : Str → Bool
  | 'o' :: 'n' :: rest =>
      let w := rest.takeWhile isWordChar
      !w.isEmpty &&
        (match (rest.drop w.length).dropWhile isSpaceChar with
         | '=' :: _ => true
         | _ => false)
  | _ => false

/-- Does the inline event-handler pattern match anywhere in the text? -/
def onHandler : Str → Bool
  | [] => false
  | c :: rest => onMatchAt (c :: rest) || onHandler rest

/-- Modelled from the spec: the SUSPICIOUS_PATTERNS deny-list lives in
SecureChatbot.constants.ts, which is absent from the repository snapshot
(only its importers are present).  Per spec section 4.1 the list rejects,
case-insensitively: script tags (including obfuscated variants, caught by
the opening tag fragment), javascript: URIs, inline on*= event-handler
attributes, and data:text/html URIs. -/
def suspicious (input : Str) : Bool :=
  let l := input.map lowerChar
  containsSeq ['<', 's', 'c', 'r', 'i', 'p', 't'] l ||
  containsSeq ['j', 'a', 'v', 'a', 's', 'c', 'r', 'i', 'p', 't', ':'] l ||
  onHandler l ||
  containsSeq ['d', 'a', 't', 'a', ':', 't', 'e', 'x', 't', '/', 'h', 't', 'm', 'l'] l

/-- Embedding of SecurityUtils.validateInput (SecureChatbot.utils.ts).
The JavaScript guard `!input || typeof input !== 'string'` reduces, on a
string-typed argument, to the emptiness test. -/
def validateInput (input : Str) (maxLength : Nat) : Bool :=
  if input = [] then false
  else if maxLength < input.length then false
  else if trimChars input = [] then false
  else !(suspicious input)

/-- HTML-entity escaping of one character, as performed on every character
by the DOM text-node serialization that SecurityUtils.sanitizeHtml invokes
(div.textContent := input; div.innerHTML).  The serialization escapes the
markup-significant characters of text content: ampersand, less-than,
greater-than.  (The serialization of a non-breaking space as an entity is
omitted: it is display-identical and not markup-significant.) -/
def escapeChar (c : Char) : Str :=
  if c = '&' then ['&', 'a', 'm', 'p', ';']
  else if c = '<' then ['&', 'l', 't', ';']
  else if c = '>' then ['&', 'g', 't', ';']
  else [c]

/-- Embedding of SecurityUtils.sanitizeHtml (SecureChatbot.utils.ts). -/
def sanitizeHtml : Str → Str
  | [] => []
  | c :: rest => escapeChar c ++ sanitizeHtml rest

/-- Model of rendering a string as HTML text content: character entities
are decoded back to the characters they denote.  This is the "rendered as
text" reading used to state the sanitizer round-trip property. -/
def renderText : Str → Str
  | [] => []
  | '&' :: 'a' :: 'm' :: 'p' :: ';' :: r => '&' :: renderText r
  | '&' :: 'l' :: 't' :: ';' :: r => '<' :: renderText r
  | '&' :: 'g' :: 't' :: ';' :: r => '>' :: renderText r
  | c :: rest => c :: renderText rest

/-- Embedding of canSendMessage (useRateLimit.hook.ts): the count of
recorded timestamps strictly inside the trailing window is strictly below
the configured maximum. -/
def canSendMessage (maxMessages : Nat) (windowMs : Int) (ts : List Int) (now : Int) : Bool :=
  decide ((ts.filter (fun t => decide (now - t < windowMs))).length < maxMessages)

/-- The stateful reading of canSendMessage: the hook computes its filtered
copy locally and performs no state update, so the state component of the
result is the input state unchanged. -/
def canSendMessageS (maxMessages : Nat) (windowMs : Int) (ts : List Int) (now : Int) :
    Bool × List Int :=
  (canSendMessage maxMessages windowMs ts now, ts)

/-- Embedding of recordMessage (useRateLimit.hook.ts): prune entries that
have left the window, then append the current instant. -/
def recordMessage (windowMs : Int) (ts : List Int) (now : Int) : List Int :=
  ts.filter (fun t => decide (now - t < windowMs)) ++ [now]

/-- Interface languages carried by the i18n layer (the keys of the mock
response catalogue in generateMockResponse). -/
inductive Lang
  | en
  | fr
  | pt
deriving DecidableEq

/-- The fixed filler-response catalogue of generateMockResponse
(SecureChatbot.tsx), with the translation function modelled as the
identity on the catalogue entries. -/
def mockCatalogue : Lang → List Str
  | .en =>
    [ "Sorry, I don\x27t have the information to answer that.".data,
      "That\x27s an interesting question!".data,
      "Let me look that up for you...".data,
      "Could you please provide more details?".data,
      "Thank you for your input!".data ]
  | .fr =>
    [ "Désolé, je n\x27ai pas les informations nécessaires pour répondre à cette question.".data,
      "C\x27est une question intéressante!".data,
      "Laissez-moi chercher cela pour vous...".data,
      "Pourriez-vous fournir plus de détails?".data,
      "Merci pour votre contribution!".data ]
  | .pt =>
    [ "Desculpe, não tenho as informações para responder a isso.".data,
      "Essa é uma pergunta interessante!".data,
      "Deixe-me procurar isso para você...".data,
      "Poderia fornecer mais detalhes?".data,
      "Obrigado pela sua contribuição!".data ]

/-- Embedding of generateMockResponse (SecureChatbot.tsx): a filler
response chosen by the random index, followed by a verbatim echo of the
original user text.  The Math.random draw is modelled by the index
parameter, reduced modulo the catalogue length exactly as the floor of
random times length always lands inside the catalogue. -/
def mockResponse (lang : Lang) (idx : Nat) (message : Str) : Str :=
  (mockCatalogue lang).getD (idx % 5) [] ++ " (Mock Response to: ".data ++ message ++ ")".data

/-- The observable resolution of one fetch exchange: a transport failure,
or a response with a success flag, a content-type flag (application/json
or not) and an optional string reply field (none models a payload whose
reply field is absent or not a string, including unparsable bodies). -/
inductive NetOutcome
  | netFail
  | resp (okStatus : Bool) (ctJson : Bool) (reply : Option Str)
deriving DecidableEq

/-- The recoverable-to-fallback conditions of sendMessageToAPI: transport
failure, non-success status, wrong content type, or missing reply field. -/
def fallbackOutcome : NetOutcome → Bool
  | .netFail => true
  | .resp okStatus ctJson reply => !okStatus || !ctJson || reply.isNone

/-- Embedding of the resolution logic of sendMessageToAPI
(SecureChatbot.tsx).  A cancelled exchange rejects with an abort error,
which the catch-all converts into a mock response; a non-success status
returns the mock directly; content-type and shape mismatches throw and
are likewise caught and converted; a well-formed reply is sanitized
before being returned.  No path propagates an error to the caller. -/
def apiResult (lang : Lang) (aborted : Bool) (out : NetOutcome) (idx : Nat)
    (message : Str) : Str :=
  if aborted then mockResponse lang idx message
  else
    match out with
    | .netFail => mockResponse lang idx message
    | .resp okStatus ctJson reply =>
      if okStatus = false then mockResponse lang idx message
      else if ctJson = false then mockResponse lang idx message
      else
        match reply with
        | none => mockResponse lang idx message
        | some r => sanitizeHtml r

/-- Message authors. -/
inductive Sender
  | user
  | bot
deriving DecidableEq

/-- Message delivery status. -/
inductive MsgStatus
  | sending
  | sent
  | error
deriving DecidableEq

/-- Embedding of the Message record (SecureChatbot.types.ts).  Identifiers
from crypto.randomUUID are modelled by naturals drawn from a strictly
increasing counter, which realises their uniqueness. -/
structure Message where
  id : Nat
  content : Str
  sender : Sender
  timestamp : Int
  status : MsgStatus
deriving DecidableEq

/-- Connection status of the widget header. -/
inductive ConnStatus
  | disconnected
  | connected
  | error
deriving DecidableEq

/-- The failures surfaced to the host onError callback by
handleSendMessage. -/
inductive HostErr
  | invalidContent
  | rateLimited
deriving DecidableEq

/-- One in-flight exchange: its abort-controller generation, the id of
the bot placeholder it must reconcile, and the trimmed user text it
carries. -/
structure PendingExchange where
  exGen : Nat
  botId : Nat
  userText : Str
deriving DecidableEq

/-- The effective configuration after merging the host config over the
defaults. -/
structure Config where
  maxMessageLength : Nat
  maxMessages : Nat
  windowMs : Int
  lang : Lang

/-- The complete controller state: the React component state, the rate
limiter state, the abort-controller reference (as a generation counter
plus the set of generations that have been signalled), the in-flight
exchanges awaiting settlement, and the logs of host-callback
invocations. -/
structure World where
  messages : List Message
  inputValue : Str
  isLoading : Bool
  connectionStatus : ConnStatus
  sessionId : Nat
  timestamps : List Int
  nextId : Nat
  currentGen : Option Nat
  nextGen : Nat
  abortedGens : List Nat
  pending : List PendingExchange
  errors : List HostErr
  sentLog : List Str
deriving DecidableEq

/-- The freshly mounted component: empty log, empty input, not busy,
disconnected, an initial session identifier from the id source. -/
def World.init : World :=
  { messages := [], inputValue := [], isLoading := false,
    connectionStatus := .disconnected, sessionId := 0, timestamps := [],
    nextId := 1, currentGen := none, nextGen := 0, abortedGens := [],
    pending := [], errors := [], sentLog := [] }

/-- Embedding of handleInputChange (SecureChatbot.tsx): the buffer accepts
the new value only while it fits the configured maximum length. -/
def stepInput (cfg : Config) (w : World) (s : Str) : World :=
  if s.length ≤ cfg.maxMessageLength then { w with inputValue := s } else w

/-- The user message appended by an accepted send: status sent at
creation, content the trimmed input. -/
def mkUserMsg (id : Nat) (content : Str) (now : Int) : Message :=
  { id := id, content := content, sender := .user, timestamp := now, status := .sent }

/-- The bot placeholder appended by an accepted send: status sending,
empty content. -/
def mkBotMsg (id : Nat) (now : Int) : Message :=
  { id := id, content := [], sender := .bot, timestamp := now, status := .sending }

/-- Embedding of handleSendMessage (SecureChatbot.tsx) up to the await of
the exchange: trim; silently stop on an empty trim; surface a validation
or rate-limit error and stop without touching anything else; otherwise
record the rate-limit slot, append the user message and the bot
placeholder in one update, clear the buffer, set busy and connected,
notify the message-sent collaborator, abort the previous abort-controller
generation, and start a fresh exchange. -/
def stepSend (cfg : Config) (w : World) (now : Int) : World :=
  if trimChars w.inputValue = [] then w
  else if validateInput (trimChars w.inputValue) cfg.maxMessageLength = false then
    { w with connectionStatus := .error, errors := w.errors ++ [.invalidContent] }
  else if canSendMessage cfg.maxMessages cfg.windowMs w.timestamps now = false then
    { w with connectionStatus := .error, errors := w.errors ++ [.rateLimited] }
  else
    { w with
      timestamps := recordMessage cfg.windowMs w.timestamps now,
      messages := w.messages ++
        [mkUserMsg w.nextId (trimChars w.inputValue) now, mkBotMsg (w.nextId + 1) now],
      inputValue := [],
      isLoading := true,
      connectionStatus := .connected,
      sentLog := w.sentLog ++ [trimChars w.inputValue],
      nextId := w.nextId + 2,
      abortedGens :=
        (match w.currentGen with
         | some g => w.abortedGens ++ [g]
         | none => w.abortedGens),
      currentGen := some w.nextGen,
      nextGen := w.nextGen + 1,
      pending := w.pending ++ [{ exGen := w.nextGen, botId := w.nextId + 1, userText := trimChars w.inputValue }] }

/-- Embedding of handleKeyPress (SecureChatbot.tsx): Enter submits only
without the shift modifier and only while not busy. -/
def stepKey (cfg : Config) (w : World) (shift : Bool) (now : Int) : World :=
  if shift = false ∧ w.isLoading = false then stepSend cfg w now else w

/-- Settlement of the exchange with the given generation, if it is still
awaiting resolution: the dispatcher resolves to a reply (fallback or
sanitized), the controller maps it onto the placeholder matched by id,
marking it sent, and the finally clause clears busy.  The exchange is
consumed: a promise settles once. -/
def stepSettle (cfg : Config) (w : World) (g : Nat) (out : NetOutcome) (idx : Nat) : World :=
  match w.pending.find? (fun p => p.exGen == g) with
  | none => w
  | some p =>
    { w with
      messages := w.messages.map (fun m =>
        if m.id = p.botId then
          { m with
            content := apiResult cfg.lang (w.abortedGens.contains g) out idx p.userText,
            status := .sent }
        else m),
      isLoading := false,
      pending := w.pending.filter (fun q => !(q.exGen == g)) }

/-- Embedding of handleNewSession (SecureChatbot.tsx): clear the message
log and draw a fresh session identifier; nothing else is touched. -/
def stepNewSession (w : World) : World :=
  { w with messages := [], sessionId := w.nextId, nextId := w.nextId + 1 }

/-- The events of the single logical event queue. -/
inductive Ev
  | input (s : Str)
  | send (now : Int)
  | keyEnter (shift : Bool) (now : Int)
  | settle (g : Nat) (out : NetOutcome) (idx : Nat)
  | newSession
deriving DecidableEq

/-- One event step of the controller. -/
def step (cfg : Config) (w : World) : Ev → World
  | .input s => stepInput cfg w s
  | .send now => stepSend cfg w now
  | .keyEnter shift now => stepKey cfg w shift now
  | .settle g out idx => stepSettle cfg w g out idx
  | .newSession => stepNewSession w

/-- Run a sequence of events. -/
def run (cfg : Config) (w : World) : List Ev → World
  | [] => w
  | e :: rest => run cfg (step cfg w e) rest

/-- A controller state is reachable when some event sequence produces it
from the freshly mounted component. -/
def Reachable (cfg : Config) (w : World) : Prop :=
  ∃ evs, run cfg World.init evs = w

/-- The deployment configuration of the example host (part_001/part_002):
length 500, five messages per thirty seconds. -/
def cfg0 : Config :=
  { maxMessageLength := 500, maxMessages := 5, windowMs := 30000, lang := .en }

/-- Rendering a string that does not start with an ampersand decodes no
entity at its head. -/
theorem renderText_cons_ne (c : Char) (rest : Str) (h : c ≠ '&') :
    renderText (c :: rest) = c :: renderText rest := by
  rw [renderText.eq_def]
  split <;> simp_all

/-- Rendering inverts sanitizing: the escaped string displays as the
original text. -/
theorem renderText_sanitize (l : Str) : renderText (sanitizeHtml l) = l := by
  induction l with
  | nil => rfl
  | cons c rest ih =>
    by_cases h1 : c = '&'
    · subst h1
      simp [sanitizeHtml, escapeChar, renderText, ih]
    · by_cases h2 : c = '<'
      · subst h2
        simp [sanitizeHtml, escapeChar, renderText, ih]
      · by_cases h3 : c = '>'
        · subst h3
          simp [sanitizeHtml, escapeChar, renderText, ih]
        · simp [sanitizeHtml, escapeChar, h1, h2, h3, renderText_cons_ne c _ h1, ih]

/-- No escaped character expands to a less-than sign. -/
theorem not_mem_escape_lt (c : Char) : '<' ∉ escapeChar c := by
  unfold escapeChar
  split_ifs with h1 h2 h3 <;> simp_all
  exact fun hc => h2 hc.symm

/-- No escaped character expands to a greater-than sign. -/
theorem not_mem_escape_gt (c : Char) : '>' ∉ escapeChar c := by
  unfold escapeChar
  split_ifs with h1 h2 h3 <;> simp_all
  exact fun hc => h3 hc.symm

/-- The sanitized output contains no less-than sign. -/
theorem not_mem_sanitize_lt (l : Str) : '<' ∉ sanitizeHtml l := by
  induction l with
  | nil => simp [sanitizeHtml]
  | cons c rest ih =>
    simp only [sanitizeHtml, List.mem_append]
    exact fun hc => hc.elim (not_mem_escape_lt c) ih

/-- The sanitized output contains no greater-than sign. -/
theorem not_mem_sanitize_gt (l : Str) : '>' ∉ sanitizeHtml l := by
  induction l with
  | nil => simp [sanitizeHtml]
  | cons c rest ih =>
    simp only [sanitizeHtml, List.mem_append]
    exact fun hc => hc.elim (not_mem_escape_gt c) ih

/-- C9: for every input string x, sanitize(x) HTML-entity-escapes the
markup-significant characters, so that sanitize(x) rendered as text
content equals x literally (round trip), the output can open no tag (it
contains neither a less-than nor a greater-than sign), and re-sanitizing
already-escaped text does not corrupt the displayed result: the doubly
escaped string still renders to the singly escaped string, hence displays,
after the one rendering the page performs, exactly what the singly
escaped string displays. -/
theorem c9_sanitize_roundtrip : ∀ x : Str,
    renderText (sanitizeHtml x) = x ∧
    ('<' ∉ sanitizeHtml x ∧ '>' ∉ sanitizeHtml x) ∧
    renderText (sanitizeHtml (sanitizeHtml x)) = sanitizeHtml x :=
  fun x =>
    ⟨renderText_sanitize x, ⟨not_mem_sanitize_lt x, not_mem_sanitize_gt x⟩,
      renderText_sanitize (sanitizeHtml x)⟩

/-- C2: canSend is true exactly when the count of recorded timestamps
strictly inside the trailing window is strictly below the maximum, and it
returns the timestamp state unchanged; with maxMessages 5 and windowMs
30000, five sends recorded within one millisecond leave canSend false at
that instant, and a send recorded at t = 0 no longer counts against the
window at t = 30001, where canSend is true again. -/
theorem c2_canSend_spec :
    (∀ (maxM : Nat) (winMs : Int) (ts : List Int) (now : Int),
      (canSendMessage maxM winMs ts now = true ↔
        ts.countP (fun t => decide (now - t < winMs)) < maxM) ∧
      canSendMessageS maxM winMs ts now = (canSendMessage maxM winMs ts now, ts)) ∧
    canSendMessage 5 30000
      (recordMessage 30000 (recordMessage 30000 (recordMessage 30000
        (recordMessage 30000 (recordMessage 30000 [] 0) 0) 0) 1) 1) 1 = false ∧
    canSendMessage 5 30000 (recordMessage 30000 [] 0) 30001 = true ∧
    decide ((30001 : Int) - 0 < 30000) = false := by
  refine ⟨fun maxM winMs ts now => ⟨?_, rfl⟩, by decide, by decide, by decide⟩
  simp [canSendMessage, List.countP_eq_length_filter]

/-- C4: validateInput returns false exactly when the input is empty, its
length exceeds the maximum, its trimmed form is empty, or it matches a
denylisted suspicious pattern; matching is case-insensitive, as the
mixed-case instances show; the function is total on textual input. -/
theorem c4_validate_spec :
    (∀ (input : Str) (maxLength : Nat),
      validateInput input maxLength = false ↔
        (input = [] ∨ maxLength < input.length ∨ trimChars input = [] ∨
          suspicious input = true)) ∧
    validateInput "<ScRiPt>alert(1)</script>".data 100 = false ∧
    validateInput "JaVaScRiPt:alert(1)".data 100 = false ∧
    validateInput "<img onerror = \x27x\x27>".data 100 = false ∧
    validateInput "DATA:TEXT/HTML,x".data 100 = false ∧
    validateInput "hello world".data 100 = true ∧
    validateInput "hello".data 3 = false := by
  refine ⟨fun input maxLength => ?_, by decide, by decide, by decide, by decide,
    by decide, by decide⟩
  unfold validateInput
  split_ifs with h1 h2 h3 <;> simp_all

/-- C10: on every fallback path of the dispatcher (cancellation or any of
the recoverable failure conditions) the returned reply is the locally
synthesized mock, which contains the original user text verbatim and is
not passed through the sanitizer: for the markup-bearing input <b> the
returned reply contains a raw less-than sign, which the sanitizer never
emits; genuine well-formed server replies, in contrast, are returned
sanitized. -/
theorem c10_fallback_unsanitized :
    (∀ (lang : Lang) (aborted : Bool) (out : NetOutcome) (idx : Nat) (msg : Str),
      aborted = true ∨ fallbackOutcome out = true →
      apiResult lang aborted out idx msg = mockResponse lang idx msg) ∧
    (∀ (lang : Lang) (idx : Nat) (msg : Str),
      ∃ a b, mockResponse lang idx msg = a ++ (msg ++ b)) ∧
    (∀ (lang : Lang) (idx : Nat),
      '<' ∈ mockResponse lang idx ['<', 'b', '>'] ∧
      '<' ∉ sanitizeHtml ['<', 'b', '>']) ∧
    (∀ (r : Str) (lang : Lang) (idx : Nat) (msg : Str),
      apiResult lang false (NetOutcome.resp true true (some r)) idx msg = sanitizeHtml r) := by
  refine ⟨?_, ?_, ?_, ?_⟩
  · intro lang aborted out idx msg h
    rcases h with h | h
    · subst h
      simp [apiResult]
    · cases out with
      | netFail => cases aborted <;> simp [apiResult]
      | resp okStatus ctJson reply =>
        cases okStatus <;> cases ctJson <;> cases reply <;> cases aborted <;>
          simp_all [apiResult, fallbackOutcome]
  · intro lang idx msg
    refine ⟨(mockCatalogue lang).getD (idx % 5) [] ++ " (Mock Response to: ".data,
      ")".data, ?_⟩
    simp [mockResponse, List.append_assoc]
  · intro lang idx
    refine ⟨?_, not_mem_sanitize_lt _⟩
    simp [mockResponse, List.mem_append]
  · intro r lang idx msg
    simp [apiResult]

/-- C10 witness: the fallback equation applied at a concrete cancelled
exchange. -/
theorem c10_witness :
    apiResult Lang.en true NetOutcome.netFail 0 "hi".data =
      mockResponse Lang.en 0 "hi".data :=
  c10_fallback_unsanitized.1 Lang.en true NetOutcome.netFail 0 "hi".data (Or.inl rfl)

/-- Per-message well-formedness: identifiers are drawn below the id
counter, user messages carry status sent, bot messages are sent or still
sending, and a sending message is a bot placeholder with empty content
whose exchange is still awaiting settlement. -/
def MsgInv (w : World) (m : Message) : Prop :=
  m.id < w.nextId ∧
  (m.sender = Sender.user → m.status = MsgStatus.sent) ∧
  (m.sender = Sender.bot → m.status = MsgStatus.sent ∨ m.status = MsgStatus.sending) ∧
  (m.status = MsgStatus.sending →
    m.content = [] ∧ m.sender = Sender.bot ∧ ∃ p ∈ w.pending, p.botId = m.id)

/-- Per-exchange well-formedness: its placeholder id and generation are
below the respective counters, and any logged message carrying its
placeholder id is a bot message still in status sending. -/
def PendInv (w : World) (p : PendingExchange) : Prop :=
  p.botId < w.nextId ∧ p.exGen < w.nextGen ∧
  ∀ m ∈ w.messages, m.id = p.botId →
    m.sender = Sender.bot ∧ m.status = MsgStatus.sending

/-- The controller invariant: distinct message ids, distinct placeholder
ids and generations among in-flight exchanges, per-message and
per-exchange well-formedness, and busy only while an exchange is in
flight. -/
def Inv (w : World) : Prop :=
  (w.messages.map (fun m => m.id)).Nodup ∧
  (w.pending.map (fun p => p.botId)).Nodup ∧
  (w.pending.map (fun p => p.exGen)).Nodup ∧
  (∀ m ∈ w.messages, MsgInv w m) ∧
  (∀ p ∈ w.pending, PendInv w p) ∧
  (w.isLoading = true → w.pending ≠ [])

/-- The freshly mounted component satisfies the invariant. -/
theorem inv_init : Inv World.init := by
  refine ⟨by simp [World.init], by simp [World.init], by simp [World.init],
    by simp [World.init], by simp [World.init], ?_⟩
  intro hl
  exact absurd hl (by simp [World.init])

/-- Input events preserve the invariant. -/
theorem inv_stepInput (cfg : Config) (w : World) (s : Str) (h : Inv w) :
    Inv (stepInput cfg w s) := by
  unfold stepInput
  split
  · exact h
  · exact h

/-- New-session events preserve the invariant. -/
theorem inv_stepNewSession (w : World) (h : Inv w) : Inv (stepNewSession w) := by
  obtain ⟨h1, h2, h3, h4, h5, h6⟩ := h
  refine ⟨by simp [stepNewSession], h2, h3, by simp [stepNewSession], ?_, h6⟩
  intro p hp
  obtain ⟨hb, hg, _⟩ := h5 p hp
  exact ⟨Nat.lt_succ_of_lt hb, hg, by simp [stepNewSession]⟩

/-- Mapping a key-preserving function across a list preserves the
distinctness of keys. -/
theorem nodup_map_of_comp_eq {A B : Type} (l : List A) (f : A → A) (k : A → B)
    (hf : ∀ a, k (f a) = k a) (h : (l.map k).Nodup) : ((l.map f).map k).Nodup := by
  rw [List.map_map]
  have hck : (k ∘ f) = k := funext hf
  rw [hck]
  exact h

/-- Send events preserve the invariant. -/
theorem inv_stepSend (cfg : Config) (w : World) (now : Int) (h : Inv w) :
    Inv (stepSend cfg w now) := by
  obtain ⟨h1, h2, h3, h4, h5, h6⟩ := h
  unfold stepSend
  split_ifs with hA hB hC
  · exact ⟨h1, h2, h3, h4, h5, h6⟩
  · exact ⟨h1, h2, h3, h4, h5, h6⟩
  · exact ⟨h1, h2, h3, h4, h5, h6⟩
  have hfresh : ∀ m ∈ w.messages, m.id < w.nextId := fun m hm => (h4 m hm).1
  have hpfresh : ∀ p ∈ w.pending, p.botId < w.nextId := fun p hp => (h5 p hp).1
  have hgfresh : ∀ p ∈ w.pending, p.exGen < w.nextGen := fun p hp => (h5 p hp).2.1
  refine ⟨?_, ?_, ?_, ?_, ?_, ?_⟩
  · rw [List.map_append]
    refine List.Nodup.append h1 ?_ ?_
    · simp [mkUserMsg, mkBotMsg]
    · intro a ha hb
      simp only [List.mem_map] at ha
      obtain ⟨m, hm, rfl⟩ := ha
      have := hfresh m hm
      simp [mkUserMsg, mkBotMsg] at hb
      omega
  · rw [List.map_append]
    refine List.Nodup.append h2 (by simp) ?_
    intro a ha hb
    simp only [List.mem_map] at ha
    obtain ⟨p, hp, rfl⟩ := ha
    have := hpfresh p hp
    simp only [List.map_cons, List.map_nil, List.mem_singleton] at hb
    omega
  · rw [List.map_append]
    refine List.Nodup.append h3 (by simp) ?_
    intro a ha hb
    simp only [List.mem_map] at ha
    obtain ⟨p, hp, rfl⟩ := ha
    have := hgfresh p hp
    simp only [List.map_cons, List.map_nil, List.mem_singleton] at hb
    omega
  · intro m hm
    rcases List.mem_append.1 hm with hold | hnew
    · obtain ⟨hid, hu, hb2, hs⟩ := h4 m hold
      refine ⟨by show m.id < w.nextId + 2; omega, hu, hb2, ?_⟩
      intro hsend
      obtain ⟨hc, hsb, p, hp, hpb⟩ := hs hsend
      exact ⟨hc, hsb, p, List.mem_append_left _ hp, hpb⟩
    · rcases List.mem_cons.1 hnew with rfl | hnew2
      · refine ⟨by show w.nextId < w.nextId + 2; omega, fun _ => rfl, ?_, ?_⟩
        · intro hbot
          simp [mkUserMsg] at hbot
        · intro hsend
          simp [mkUserMsg] at hsend
      · rcases List.mem_singleton.1 hnew2 with rfl
        refine ⟨by show w.nextId + 1 < w.nextId + 2; omega,
          fun hu => by simp [mkBotMsg] at hu,
          fun _ => Or.inr rfl, ?_⟩
        intro _
        refine ⟨rfl, rfl, _, List.mem_append_right _ (List.mem_singleton.2 rfl), rfl⟩
  · intro p hp
    rcases List.mem_append.1 hp with hold | hnew
    · obtain ⟨hb, hg, hconv⟩ := h5 p hold
      refine ⟨by show p.botId < w.nextId + 2; omega,
        by show p.exGen < w.nextGen + 1; omega, ?_⟩
      intro m hm hmi
      rcases List.mem_append.1 hm with hmold | hmnew
      · exact hconv m hmold hmi
      · rcases List.mem_cons.1 hmnew with rfl | hmnew2
        · simp [mkUserMsg] at hmi
          omega
        · rcases List.mem_singleton.1 hmnew2 with rfl
          simp [mkBotMsg] at hmi
          omega
    · rcases List.mem_singleton.1 hnew with rfl
      refine ⟨by show w.nextId + 1 < w.nextId + 2; omega,
        by show w.nextGen < w.nextGen + 1; omega, ?_⟩
      intro m hm hmi
      rcases List.mem_append.1 hm with hmold | hmnew
      · have := hfresh m hmold
        simp at hmi
        omega
      · rcases List.mem_cons.1 hmnew with rfl | hmnew2
        · simp [mkUserMsg] at hmi
        · rcases List.mem_singleton.1 hmnew2 with rfl
          exact ⟨rfl, rfl⟩
  · intro _
    simp

/-- Enter-key events preserve the invariant. -/
theorem inv_stepKey (cfg : Config) (w : World) (shift : Bool) (now : Int)
    (h : Inv w) : Inv (stepKey cfg w shift now) := by
  unfold stepKey
  split
  · exact inv_stepSend cfg w now h
  · exact h

/-- Settlement events preserve the invariant. -/
theorem inv_stepSettle (cfg : Config) (w : World) (g : Nat) (out : NetOutcome)
    (idx : Nat) (h : Inv w) : Inv (stepSettle cfg w g out idx) := by
  obtain ⟨h1, h2, h3, h4, h5, h6⟩ := h
  unfold stepSettle
  cases hf : w.pending.find? (fun p => p.exGen == g) with
  | none => exact ⟨h1, h2, h3, h4, h5, h6⟩
  | some p =>
    have hpmem : p ∈ w.pending := List.mem_of_find?_eq_some hf
    have hpg : p.exGen = g := by
      have := List.find?_some hf
      simpa using this
    obtain ⟨hpb, hpgen, hpconv⟩ := h5 p hpmem
    have hsub : (w.pending.filter (fun q => !(q.exGen == g))).Sublist w.pending :=
      List.filter_sublist _
    refine ⟨?_, ?_, ?_, ?_, ?_, ?_⟩
    · exact nodup_map_of_comp_eq _ _ _
        (fun m => by by_cases hmi : m.id = p.botId <;> simp [hmi]) h1
    · exact h2.sublist (hsub.map _)
    · exact h3.sublist (hsub.map _)
    · intro m2 hm2
      obtain ⟨m, hm, rfl⟩ := List.mem_map.1 hm2
      by_cases hmi : m.id = p.botId
      · obtain ⟨hsb, hss⟩ := hpconv m hm hmi
        rw [if_pos hmi]
        refine ⟨(h4 m hm).1, ?_, fun _ => Or.inl rfl, ?_⟩
        · intro hu
          have hu2 : m.sender = Sender.user := hu
          rw [hsb] at hu2
        · intro hsend
          have hs2 : MsgStatus.sent = MsgStatus.sending := hsend
          exact MsgStatus.noConfusion hs2
      · rw [if_neg hmi]
        obtain ⟨hid, hu, hb2, hs⟩ := h4 m hm
        refine ⟨hid, hu, hb2, ?_⟩
        intro hsend
        obtain ⟨hc, hsb2, q, hq, hqb⟩ := hs hsend
        have hqg : (q.exGen == g) = false := by
          by_contra hc2
          have hqg2 : q.exGen = g := by
            have : (q.exGen == g) = true := by
              cases hb3 : (q.exGen == g)
              · exact absurd hb3 hc2
              · rfl
            simpa using this
          have hqp : q = p :=
            List.inj_on_of_nodup_map h3 hq hpmem (by rw [hqg2, hpg])
          rw [hqp] at hqb
          exact hmi (hqb ▸ rfl)
        refine ⟨hc, hsb2, q, List.mem_filter.2 ⟨hq, by simp [hqg]⟩, hqb⟩
    · intro q hq2
      have hq : q ∈ w.pending := (List.mem_filter.1 hq2).1
      have hqg : (q.exGen == g) = false := by
        have := (List.mem_filter.1 hq2).2
        simpa using this
      obtain ⟨hqb, hqgen, hqconv⟩ := h5 q hq
      refine ⟨hqb, hqgen, ?_⟩
      intro m2 hm2 hmi2
      obtain ⟨m, hm, rfl⟩ := List.mem_map.1 hm2
      by_cases hmi : m.id = p.botId
      · rw [if_pos hmi] at hmi2 ⊢
        have hqbp : q.botId = p.botId := by
          have : m.id = q.botId := hmi2
          omega
        have hqp : q = p := List.inj_on_of_nodup_map h2 hq hpmem hqbp
        rw [hqp, hpg] at hqg
        simp at hqg
      · rw [if_neg hmi] at hmi2 ⊢
        exact hqconv m hm hmi2
    · intro hl
      exact absurd hl (by simp)

/-- Every event step preserves the invariant. -/
theorem inv_step (cfg : Config) (w : World) (ev : Ev) (h : Inv w) :
    Inv (step cfg w ev) := by
  cases ev with
  | input s => exact inv_stepInput cfg w s h
  | send now => exact inv_stepSend cfg w now h
  | keyEnter shift now => exact inv_stepKey cfg w shift now h
  | settle g out idx => exact inv_stepSettle cfg w g out idx h
  | newSession => exact inv_stepNewSession w h

/-- Running any event sequence preserves the invariant. -/
theorem inv_run (cfg : Config) (w : World) (evs : List Ev) (h : Inv w) :
    Inv (run cfg w evs) := by
  induction evs generalizing w with
  | nil => exact h
  | cons e rest ih => exact ih _ (inv_step cfg w e h)

/-- Every reachable controller state satisfies the invariant. -/
theorem inv_reachable (cfg : Config) (w : World) (h : Reachable cfg w) : Inv w := by
  obtain ⟨evs, hev⟩ := h
  exact hev ▸ inv_run cfg World.init evs inv_init

/-- Every fallback condition, cancellation included, resolves the
dispatcher to the locally synthesized mock reply. -/
theorem apiResult_fallback (lang : Lang) (aborted : Bool) (out : NetOutcome)
    (idx : Nat) (msg : Str) (h : aborted = true ∨ fallbackOutcome out = true) :
    apiResult lang aborted out idx msg = mockResponse lang idx msg := by
  rcases h with h | h
  · subst h
    simp [apiResult]
  · cases out with
    | netFail => cases aborted <;> simp [apiResult]
    | resp okStatus ctJson reply =>
      cases okStatus <;> cases ctJson <;> cases reply <;> cases aborted <;>
        simp_all [apiResult, fallbackOutcome]

/-- The mock reply decomposes as a filler followed by a verbatim echo of
the original user text. -/
theorem mockResponse_echo (lang : Lang) (idx : Nat) (msg : Str) :
    ∃ a b, mockResponse lang idx msg = a ++ (msg ++ b) := by
  refine ⟨(mockCatalogue lang).getD (idx % 5) [] ++ " (Mock Response to: ".data,
    ")".data, ?_⟩
  simp [mockResponse, List.append_assoc]

/-- Settling a generation with no awaiting exchange changes nothing: a
promise settles at most once. -/
theorem stepSettle_none (cfg : Config) (w : World) (g : Nat) (out : NetOutcome)
    (idx : Nat) (hf : w.pending.find? (fun q => q.exGen == g) = none) :
    stepSettle cfg w g out idx = w := by
  unfold stepSettle
  rw [hf]

/-- Messages already logged survive every send, whether rejected or
accepted. -/
theorem mem_messages_stepSend (cfg : Config) (w : World) (now : Int)
    (m : Message) (hm : m ∈ w.messages) : m ∈ (stepSend cfg w now).messages := by
  unfold stepSend
  split_ifs with hA hB hC
  · exact hm
  · exact hm
  · exact hm
  · exact List.mem_append_left _ hm

/-- The message-lifecycle properties of one controller state: distinct
ids; user messages sent and sending messages bot-authored with empty
content, with all ids below the id counter; an accepted send appends
exactly the user message and the bot placeholder in one update, with the
two fresh ids; a settlement performs the single in-place transition of
the matched placeholder to status sent carrying the dispatcher reply; and
a message no longer in status sending is preserved verbatim by every
event other than the explicit new-session reset. -/
def C5Prop (cfg : Config) (w : World) : Prop :=
  (w.messages.map (fun m => m.id)).Nodup ∧
  (∀ m ∈ w.messages,
    (m.sender = Sender.user → m.status = MsgStatus.sent) ∧
    (m.sender = Sender.bot → m.status = MsgStatus.sent ∨ m.status = MsgStatus.sending) ∧
    (m.status = MsgStatus.sending → m.content = [] ∧ m.sender = Sender.bot) ∧
    m.id < w.nextId) ∧
  (∀ now : Int, trimChars w.inputValue ≠ [] →
    validateInput (trimChars w.inputValue) cfg.maxMessageLength = true →
    canSendMessage cfg.maxMessages cfg.windowMs w.timestamps now = true →
    (stepSend cfg w now).messages =
      w.messages ++ [mkUserMsg w.nextId (trimChars w.inputValue) now,
        mkBotMsg (w.nextId + 1) now]) ∧
  (∀ (g : Nat) (out : NetOutcome) (idx : Nat) (p : PendingExchange),
    w.pending.find? (fun q => q.exGen == g) = some p →
    (stepSettle cfg w g out idx).messages =
      w.messages.map (fun m =>
        if m.id = p.botId then
          { m with
            content := apiResult cfg.lang (w.abortedGens.contains g) out idx p.userText,
            status := MsgStatus.sent }
        else m)) ∧
  (∀ m ∈ w.messages, m.status ≠ MsgStatus.sending →
    ∀ ev : Ev, ev ≠ Ev.newSession → m ∈ (step cfg w ev).messages)

/-- C5: in every reachable message log, an accepted send appends exactly
one user message (status sent, content the trimmed input) immediately
followed by one bot placeholder (status sending, content empty) in a
single atomic update with fresh ids; every user message carries status
sent, every bot message is created sending with empty content and
undergoes exactly one in-place transition, applied by the settlement of
its exchange, to status sent with the dispatcher reply; ids never change
and are never reused within a session. -/
theorem c5_message_lifecycle (cfg : Config) (w : World) (h : Reachable cfg w) :
    C5Prop cfg w := by
  obtain ⟨h1, h2, h3, h4, h5, h6⟩ := inv_reachable cfg w h
  refine ⟨h1, ?_, ?_, ?_, ?_⟩
  · intro m hm
    obtain ⟨hid, hu, hb, hs⟩ := h4 m hm
    exact ⟨hu, hb, fun hsend => ⟨(hs hsend).1, (hs hsend).2.1⟩, hid⟩
  · intro now hA hB hC
    unfold stepSend
    rw [if_neg hA, if_neg (by simp [hB]), if_neg (by simp [hC])]
  · intro g out idx p hf
    simp only [stepSettle, hf]
  · intro m hm hnotsend ev hne
    cases ev with
    | input s =>
      show m ∈ (stepInput cfg w s).messages
      unfold stepInput
      split
      · exact hm
      · exact hm
    | send now => exact mem_messages_stepSend cfg w now m hm
    | keyEnter shift now =>
      show m ∈ (stepKey cfg w shift now).messages
      unfold stepKey
      split
      · exact mem_messages_stepSend cfg w now m hm
      · exact hm
    | settle g out idx =>
      show m ∈ (stepSettle cfg w g out idx).messages
      unfold stepSettle
      cases hf : w.pending.find? (fun q => q.exGen == g) with
      | none => exact hm
      | some p =>
        have hne2 : m.id ≠ p.botId := by
          intro he
          exact hnotsend
            (((h5 p (List.mem_of_find?_eq_some hf)).2.2 m hm he).2)
        exact List.mem_map.2 ⟨m, hm, by rw [if_neg hne2]⟩
    | newSession => exact absurd rfl hne

/-- A reachable state with one accepted send: user message and bot
placeholder logged, the exchange in flight. -/
def wPend : World := run cfg0 World.init [Ev.input "hi".data, Ev.send 0]

/-- C5 witness: the lifecycle properties at the concrete reachable state
with one accepted send in flight. -/
theorem c5_witness : C5Prop cfg0 wPend :=
  c5_message_lifecycle cfg0 wPend ⟨[Ev.input "hi".data, Ev.send 0], rfl⟩

/-- The busy-discipline properties of one controller state: settling an
awaiting exchange clears busy whatever the outcome, consumes the
exchange so that a repeated settlement of the same generation is a
no-op, and once no exchange awaits settlement the busy flag is down and
no placeholder remains in status sending. -/
def C7Prop (cfg : Config) (w : World) : Prop :=
  (∀ (g : Nat) (out : NetOutcome) (idx : Nat) (p : PendingExchange),
    w.pending.find? (fun q => q.exGen == g) = some p →
    (stepSettle cfg w g out idx).isLoading = false ∧
    (stepSettle cfg w g out idx).pending.find? (fun q => q.exGen == g) = none ∧
    (∀ (out2 : NetOutcome) (idx2 : Nat),
      stepSettle cfg (stepSettle cfg w g out idx) g out2 idx2 =
        stepSettle cfg w g out idx)) ∧
  (w.pending = [] → w.isLoading = false ∧
    ∀ m ∈ w.messages, m.status ≠ MsgStatus.sending)

/-- C7: for every accepted send and every outcome of its exchange, the
busy flag is cleared by the settlement unconditionally and exactly once
per exchange (the exchange is consumed, so a second settlement of the
same generation changes nothing), and no reachable state without an
exchange awaiting settlement has the busy flag set or a bot placeholder
left in status sending. -/
theorem c7_busy_cleared (cfg : Config) (w : World) (h : Reachable cfg w) :
    C7Prop cfg w := by
  obtain ⟨h1, h2, h3, h4, h5, h6⟩ := inv_reachable cfg w h
  constructor
  · intro g out idx p hf
    have hnone : ((w.pending.filter (fun q => !(q.exGen == g))).find?
        (fun q => q.exGen == g)) = none := by
      apply List.find?_eq_none.2
      intro q hq
      have hq2 := (List.mem_filter.1 hq).2
      simp at hq2
      simp [hq2]
    have hnone2 : (stepSettle cfg w g out idx).pending.find?
        (fun q => q.exGen == g) = none := by
      simp only [stepSettle, hf]
      exact hnone
    refine ⟨by simp only [stepSettle, hf], hnone2, ?_⟩
    intro out2 idx2
    exact stepSettle_none cfg _ g out2 idx2 hnone2
  · intro hpe
    constructor
    · cases hb : w.isLoading with
      | false => rfl
      | true => exact absurd hpe (h6 hb)
    · intro m hm hs
      obtain ⟨_, _, q, hq, _⟩ := (h4 m hm).2.2.2 hs
      rw [hpe] at hq
      exact absurd hq (List.not_mem_nil q)

/-- A reachable state whose only exchange has settled. -/
def wDone : World :=
  run cfg0 World.init
    [Ev.input "hi".data, Ev.send 0, Ev.settle 0 NetOutcome.netFail 0]

/-- C7 witness: the busy discipline at the concrete reachable state whose
exchange has settled. -/
theorem c7_witness : C7Prop cfg0 wDone :=
  c7_busy_cleared cfg0 wDone
    ⟨[Ev.input "hi".data, Ev.send 0, Ev.settle 0 NetOutcome.netFail 0], rfl⟩

/-- A reachable state with one exchange in flight and fresh text typed
into the buffer. -/
def wOverlapMid : World :=
  run cfg0 World.init [Ev.input "hi".data, Ev.send 0, Ev.input "yo".data]

/-- A reachable state with two overlapping exchanges: the second send
aborted the first exchange, whose placeholder still awaits settlement. -/
def wOverlap : World :=
  run cfg0 World.init
    [Ev.input "hi".data, Ev.send 0, Ev.input "yo".data, Ev.send 1]

/-- C1 counterexample: in the reachable state with two overlapping
exchanges, settling the superseded first exchange is not a no-op on the
message log — its placeholder is rewritten, because the controller
applies the reconciliation without checking that the exchange is still
current and the dispatcher converts the observed abort into a mock
reply. -/
theorem c1_counterexample :
    (stepSettle cfg0 wOverlap 0 NetOutcome.netFail 0).messages ≠
      wOverlap.messages := by
  decide

/-- An accepted send signals cancellation to the previously current
abort-controller generation. -/
def C1CancelProp (cfg : Config) : Prop :=
  ∀ (w : World) (now : Int) (g : Nat), w.currentGen = some g →
    trimChars w.inputValue ≠ [] →
    validateInput (trimChars w.inputValue) cfg.maxMessageLength = true →
    canSendMessage cfg.maxMessages cfg.windowMs w.timestamps now = true →
    (stepSend cfg w now).abortedGens = w.abortedGens ++ [g]

/-- Settling a superseded (aborted) exchange is applied, not discarded:
its placeholder receives the mock reply with status sent. -/
def C1AppliedProp (cfg : Config) : Prop :=
  ∀ (w : World) (g : Nat) (out : NetOutcome) (idx : Nat) (p : PendingExchange),
    w.pending.find? (fun q => q.exGen == g) = some p →
    w.abortedGens.contains g = true →
    (stepSettle cfg w g out idx).messages =
      w.messages.map (fun m =>
        if m.id = p.botId then
          { m with
            content := mockResponse cfg.lang idx p.userText,
            status := MsgStatus.sent }
        else m)

/-- C1 (amended): starting a new exchange signals cancellation to the
previously outstanding one, so at most one fetch proceeds unaborted; but
the superseded exchange's settlement is not discarded and the controller
performs no current-exchange check: the dispatcher's catch-all converts
the observed abort into a locally synthesized fallback reply, which the
settlement applies to the superseded exchange's own bot placeholder with
status sent. -/
theorem c1_cancel_not_discarded (cfg : Config) :
    C1CancelProp cfg ∧ C1AppliedProp cfg := by
  constructor
  · intro w now g hcg hA hB hC
    unfold stepSend
    rw [if_neg hA, if_neg (by simp [hB]), if_neg (by simp [hC])]
    show (match w.currentGen with
          | some g2 => w.abortedGens ++ [g2]
          | none => w.abortedGens) = w.abortedGens ++ [g]
    rw [hcg]
  · intro w g out idx p hf hab
    have hmock : apiResult cfg.lang (w.abortedGens.contains g) out idx p.userText =
        mockResponse cfg.lang idx p.userText :=
      apiResult_fallback cfg.lang _ out idx p.userText (Or.inl hab)
    simp only [stepSettle, hf, hmock]

/-- C1 (amended) witness: cancellation signalled and superseded
settlement applied, at the concrete overlapping-exchange states. -/
theorem c1_witness :
    (stepSend cfg0 wOverlapMid 1).abortedGens = wOverlapMid.abortedGens ++ [0] ∧
    (stepSettle cfg0 wOverlap 0 NetOutcome.netFail 3).messages =
      wOverlap.messages.map (fun m =>
        if m.id = 2 then
          { m with
            content := mockResponse Lang.en 3 "hi".data,
            status := MsgStatus.sent }
        else m) :=
  ⟨(c1_cancel_not_discarded cfg0).1 wOverlapMid 1 0 (by decide) (by decide)
      (by decide) (by decide),
    (c1_cancel_not_discarded cfg0).2 wOverlap 0 NetOutcome.netFail 3
      { exGen := 0, botId := 2, userText := "hi".data } (by decide) (by decide)⟩

/-- A reachable state made busy through the Enter key. -/
def wBusy : World := run cfg0 World.init [Ev.input "hi".data, Ev.keyEnter false 0]

/-- C6 counterexample: in the reachable busy state, a second Enter-send
is a complete no-op — the state is unchanged, so in particular the
in-flight exchange is not cancelled or superseded (no generation is ever
aborted), contradicting the claimed cancellation. -/
theorem c6_counterexample :
    stepKey cfg0 wBusy false 1 = wBusy ∧
    wBusy.isLoading = true ∧
    wBusy.pending = [{ exGen := 0, botId := 2, userText := "hi".data }] ∧
    wBusy.abortedGens = [] ∧
    (stepKey cfg0 wBusy false 1).abortedGens = [] := by
  decide

/-- C6 (amended): a second onSend issued through the UI while an exchange
is in flight is suppressed entirely: it appends nothing to the message
log and does not cancel or supersede the outstanding exchange; an
outstanding exchange is cancelled only when a later exchange actually
starts. -/
theorem c6_busy_send_noop (cfg : Config) (w : World) (shift : Bool) (now : Int)
    (h : w.isLoading = true) : step cfg w (Ev.keyEnter shift now) = w := by
  show stepKey cfg w shift now = w
  unfold stepKey
  rw [if_neg]
  intro hc
  rw [h] at hc
  exact Bool.noConfusion hc.2

/-- C6 (amended) witness: the concrete busy state absorbs a second
Enter-send unchanged. -/
theorem c6_witness : step cfg0 wBusy (Ev.keyEnter false 2) = wBusy :=
  c6_busy_send_noop cfg0 wBusy false 2 (by decide)

/-- What a settlement under a recoverable failure produces: the
dispatcher resolves to the mock (filler plus verbatim echo), the
placeholder ends in status sent carrying it, no error reaches the host,
and busy is cleared. -/
def C3Concl (cfg : Config) (w : World) (g : Nat) (out : NetOutcome) (idx : Nat)
    (p : PendingExchange) : Prop :=
  apiResult cfg.lang false out idx p.userText = mockResponse cfg.lang idx p.userText ∧
  (∃ a b, mockResponse cfg.lang idx p.userText = a ++ (p.userText ++ b)) ∧
  (∀ m ∈ (stepSettle cfg w g out idx).messages, m.id = p.botId →
    m.status = MsgStatus.sent ∧ m.content = mockResponse cfg.lang idx p.userText) ∧
  (stepSettle cfg w g out idx).errors = w.errors ∧
  (stepSettle cfg w g out idx).isLoading = false

/-- C3: in the resilient (and only) configuration, an exchange that ends
in a non-success status, a transport failure, a wrong content type or a
payload lacking the reply field resolves to the locally synthesized
fallback (filler plus echo of the original text) instead of an error: the
bot placeholder ends with status sent carrying the fallback, and the host
onError callback is not invoked. -/
theorem c3_resilient_fallback (cfg : Config) (w : World) (g : Nat)
    (out : NetOutcome) (idx : Nat) (p : PendingExchange)
    (hf : w.pending.find? (fun q => q.exGen == g) = some p)
    (hout : fallbackOutcome out = true) : C3Concl cfg w g out idx p := by
  have hmock : apiResult cfg.lang (w.abortedGens.contains g) out idx p.userText =
      mockResponse cfg.lang idx p.userText := by
    cases hcont : w.abortedGens.contains g with
    | false => exact apiResult_fallback cfg.lang false out idx p.userText (Or.inr hout)
    | true => exact apiResult_fallback cfg.lang true out idx p.userText (Or.inl rfl)
  refine ⟨apiResult_fallback cfg.lang false out idx p.userText (Or.inr hout),
    mockResponse_echo cfg.lang idx p.userText, ?_, ?_, ?_⟩
  · simp only [stepSettle, hf]
    intro m2 hm2 hid
    obtain ⟨m, hm, rfl⟩ := List.mem_map.1 hm2
    by_cases hmi : m.id = p.botId
    · rw [if_pos hmi] at hid ⊢
      exact ⟨rfl, hmock⟩
    · rw [if_neg hmi] at hid
      exact absurd hid hmi
  · simp only [stepSettle, hf]
  · simp only [stepSettle, hf]

/-- C3 witness: a concrete HTTP-failure settlement of the in-flight
exchange of the reachable one-send state. -/
theorem c3_witness :
    C3Concl cfg0 wPend 0 (NetOutcome.resp false true none) 0
      { exGen := 0, botId := 2, userText := "hi".data } :=
  c3_resilient_fallback cfg0 wPend 0 (NetOutcome.resp false true none) 0
    { exGen := 0, botId := 2, userText := "hi".data } (by decide) (by decide)

/-- The frame of a rejected send: the message log, the rate-limiter
timestamps, the input buffer, the session identifier and the in-flight
exchanges are untouched, and exactly one error reaches the host. -/
def C8Concl (cfg : Config) (w : World) (now : Int) : Prop :=
  (stepSend cfg w now).messages = w.messages ∧
  (stepSend cfg w now).timestamps = w.timestamps ∧
  (stepSend cfg w now).inputValue = w.inputValue ∧
  (stepSend cfg w now).sessionId = w.sessionId ∧
  (stepSend cfg w now).pending = w.pending ∧
  ∃ e : HostErr, (stepSend cfg w now).errors = w.errors ++ [e]

/-- C8: every onSend attempt rejected by validation or by the rate
limiter surfaces exactly one host error in the same synchronous step,
leaves the message log completely unchanged, consumes no rate-limit slot
(recordSend is not reached), and leaves the input buffer and the session
identifier unchanged. -/
theorem c8_rejected_send_frame (cfg : Config) (w : World) (now : Int)
    (h1 : trimChars w.inputValue ≠ [])
    (h2 : validateInput (trimChars w.inputValue) cfg.maxMessageLength = false ∨
      (validateInput (trimChars w.inputValue) cfg.maxMessageLength = true ∧
        canSendMessage cfg.maxMessages cfg.windowMs w.timestamps now = false)) :
    C8Concl cfg w now := by
  unfold C8Concl stepSend
  rcases h2 with h2 | ⟨h2, h3⟩
  · rw [if_neg h1, if_pos h2]
    exact ⟨rfl, rfl, rfl, rfl, rfl, HostErr.invalidContent, rfl⟩
  · rw [if_neg h1, if_neg (by simp [h2]), if_pos h3]
    exact ⟨rfl, rfl, rfl, rfl, rfl, HostErr.rateLimited, rfl⟩

/-- A state whose buffer holds a deny-listed script payload. -/
def wBad : World := { World.init with inputValue := "<script>x</script>".data }

/-- C8 witness: the rejected-send frame at the concrete state holding a
script payload. -/
theorem c8_witness : C8Concl cfg0 wBad 0 :=
  c8_rejected_send_frame cfg0 wBad 0 (by decide) (Or.inl (by decide))

end Chatbot
